import Mathlib

/-!
Verification of the incremental-indexing loader pipeline
(`src/loader_graph/graph.py`) and the Slack message builder
(`src/slack_integration/slack_bot.py`).

Shallow embedding conventions:
* `lastmod` timestamps are modelled as `Int` (e.g. the ISO date
  `2024-01-01` is written `20240101`); `datetime.fromisoformat` is an
  order-preserving injection, and only order/equality of timestamps is
  ever used by the code.
* The vector store is a list of `DBRecord` (one per stored chunk) whose
  metadata projection `(id, source, lastmod)` is exactly what
  `filter_sitemap_entries` reads back via `similarity_search` with
  `k = total_count`.
* Python's `set` of `(source, lastmod)` pairs (`db_entries`) is modelled
  as `List.dedup` of the projected pairs; Python's set iteration order is
  unspecified, so theorems whose truth would depend on that order carry
  the well-formedness hypotheses making them order-independent, and
  claims about multi-run behaviour use `reconcile_under`, which takes
  each run's scan order as an explicit parameter ranging over all
  permutations of `db_entries`.
* The external Docling loader / text splitter of `create_documents` is
  abstracted by a per-entry chunk-count (resp. chunk-id) function, per
  the splitter contract: chunks produced for an entry carry metadata
  `source = entry.url`, `lastmod = entry.lastmod`.
-/

/-- Structure `SitemapEntry` from `src/utils/sitemap_entry.py` as consumed by
`filter_sitemap_entries`: a URL plus last-modified timestamp. -/
structure SitemapEntry where
  url : String
  lastmod : Int
deriving DecidableEq, Repr

/-- The metadata projection of one stored chunk, as rebuilt in
`filter_sitemap_entries` lines 38–45: `{id, source, lastmod}`. -/
structure DBRecord where
  id : String
  source : String
  lastmod : Int
deriving DecidableEq, Repr

/-- The `(source, lastmod)` projection used to build `db_entries`. -/
def pairOf (m : DBRecord) : String × Int := (m.source, m.lastmod)

/-- Definition `db_entries` (graph.py lines 49–52): the set of `(source, lastmod)`
pairs of the fetched metadata, modelled as a deduplicated list. -/
def db_entries (ms : List DBRecord) : List (String × Int) :=
  (ms.map pairOf).dedup

/-- The inner classification loop of `filter_sitemap_entries`
(graph.py lines 58–65): scan `db_entries`, and at the first pair whose
url matches decide `1` (exists, no update) when
`entry.lastmod <= db_lastmod`, else `2` (exists but updated); `0` (new)
when no pair matches. -/
def vector_flag (db : List (String × Int)) (e : SitemapEntry) : Nat :=
  match db with
  | [] => 0
  | (dbUrl, dbLastmod) :: rest =>
    if e.url = dbUrl then
      if e.lastmod ≤ dbLastmod then 1 else 2
    else vector_flag rest e

/-- The id-collection loop of graph.py lines 75–77: the ids of every
fetched metadata record whose `source` equals the entry's url. -/
def delete_ids_for (ms : List DBRecord) (e : SitemapEntry) : List String :=
  (ms.filter (fun m => decide (m.source = e.url))).map DBRecord.id

/-- The classification loop of `filter_sitemap_entries`
(graph.py lines 54–78): returns `(new_entries, delete_ids)`. -/
def reconcile (ms : List DBRecord) : List SitemapEntry → List SitemapEntry × List String
  | [] => ([], [])
  | e :: rest =>
    let r := reconcile ms rest
    let f := vector_flag (db_entries ms) e
    if f = 0 then (e :: r.1, r.2)
    else if f = 1 then r
    else if f = 2 then (e :: r.1, delete_ids_for ms e ++ r.2)
    else r

/-- Operation `VectorStoreManager.delete_by_ids` as observed on the store state:
remove every record whose id is listed. -/
def delete_by_ids (ms : List DBRecord) (ids : List String) : List DBRecord :=
  ms.filter (fun m => decide (m.id ∉ ids))

/-- Fields of `LoaderConfiguration` used by the loader graph nodes. -/
structure LoaderConfig where
  index_name : String
  load_documents_batch_size : Nat

/-- The Python exceptions raised by `filter_sitemap_entries`:
`ValueError` (missing state / missing configuration, graph.py lines 26
and 30 — the spec's `ConfigurationError` role) and `RuntimeError`
(failed retrieval, graph.py line 47 — the spec's `RetrievalError`
role). -/
inductive LoaderError where
  | valueError (msg : String)
  | runtimeError (msg : String)
deriving DecidableEq, Repr

/-- The `filter_sitemap_entries` node (graph.py lines 22–82) at the
store level.  `fetchError = some e` models `similarity_search` raising
inside the `try` block; on success the fetch returns the metadata of
the whole store (`k = total_count`).  The returned store reflects the
single write of the node, `vsm.delete_by_ids(delete_ids)` (line 81),
which is reached only on the success path. -/
def filter_sitemap_entries (entries? : Option (List SitemapEntry))
    (config? : Option LoaderConfig) (fetchError : Option String)
    (store : List DBRecord) :
    List DBRecord × Except LoaderError (List SitemapEntry) :=
  match entries? with
  | none => (store, .error (.valueError "No sitemap entries found in state."))
  | some entries =>
    match config? with
    | none =>
      (store, .error (.valueError "Configuration required to run <filter_sitemap_entries>."))
    | some _ =>
      match fetchError with
      | some e => (store, .error (.runtimeError ("Failed to retrieve documents: " ++ e)))
      | none =>
        let r := reconcile store entries
        (delete_by_ids store r.2, .ok r.1)

/-- The store after one full run: `filter_sitemap_entries` performs its
deletions, then the batch loop indexes every entry of `new_entries`,
each chunk carrying metadata `source = entry.url`,
`lastmod = entry.lastmod` (chunk ids given by `chunkIds`). -/
def store_after_run (S0 : List DBRecord) (entries : List SitemapEntry)
    (chunkIds : SitemapEntry → List String) : List DBRecord :=
  let r := reconcile S0 entries
  delete_by_ids S0 r.2 ++
    r.1.flatMap (fun e => (chunkIds e).map (fun i => ⟨i, e.url, e.lastmod⟩))

/-! ### Basic facts about the classification flag -/

theorem vector_flag_cases (db : List (String × Int)) (e : SitemapEntry) :
    vector_flag db e = 0 ∨ vector_flag db e = 1 ∨ vector_flag db e = 2 := by
  induction db with
  | nil => left; rfl
  | cons p rest ih =>
    obtain ⟨u, t⟩ := p
    by_cases hu : e.url = u
    · by_cases hle : e.lastmod ≤ t
      · right; left; simp [vector_flag, hu, hle]
      · right; right; simp [vector_flag, hu, hle]
    · simpa [vector_flag, hu] using ih

theorem vector_flag_eq_zero_iff (db : List (String × Int)) (e : SitemapEntry) :
    vector_flag db e = 0 ↔ ∀ p ∈ db, p.1 ≠ e.url := by
  induction db with
  | nil => simp [vector_flag]
  | cons p rest ih =>
    obtain ⟨u, t⟩ := p
    by_cases hu : e.url = u
    · by_cases hle : e.lastmod ≤ t <;> simp [vector_flag, hu, hle]
    · simp only [vector_flag, if_neg hu, ih, List.mem_cons]
      constructor
      · rintro h p (rfl | hp)
        · simpa using fun hc => hu hc.symm
        · exact h p hp
      · exact fun h p hp => h p (Or.inr hp)

theorem vector_flag_filter (db : List (String × Int)) (e : SitemapEntry) :
    vector_flag (db.filter (fun p => decide (p.1 = e.url))) e = vector_flag db e := by
  induction db with
  | nil => rfl
  | cons p rest ih =>
    obtain ⟨u, t⟩ := p
    by_cases hu : u = e.url
    · simp [List.filter_cons, hu, vector_flag]
    · have : e.url ≠ u := fun h => hu h.symm
      simp [List.filter_cons, hu, vector_flag, this, ih]

theorem vector_flag_const (db : List (String × Int)) (e : SitemapEntry) (t : Int)
    (hex : ∃ p ∈ db, p.1 = e.url)
    (ht : ∀ p ∈ db, p.1 = e.url → p.2 = t) :
    vector_flag db e = if e.lastmod ≤ t then 1 else 2 := by
  induction db with
  | nil => simp at hex
  | cons p rest ih =>
    obtain ⟨u, s⟩ := p
    by_cases hu : e.url = u
    · have hs : s = t := ht (u, s) (List.mem_cons_self _ _) hu.symm
      subst hs
      simp [vector_flag, hu]
    · have hex' : ∃ p ∈ rest, p.1 = e.url := by
        rcases hex with ⟨p, hp, hp1⟩
        rcases List.mem_cons.1 hp with rfl | hp'
        · exact absurd hp1.symm hu
        · exact ⟨p, hp', hp1⟩
      have ht' : ∀ p ∈ rest, p.1 = e.url → p.2 = t :=
        fun p hp => ht p (List.mem_cons_of_mem _ hp)
      simp [vector_flag, hu, ih hex' ht']

/-! ### `dedup` commutes with value-determined filters -/

theorem dedup_filter {α : Type} [DecidableEq α] (p : α → Bool) (l : List α) :
    (l.dedup).filter p = (l.filter p).dedup := by
  induction l with
  | nil => rfl
  | cons a l ih =>
    by_cases ha : a ∈ l
    · rw [List.dedup_cons_of_mem ha, ih, List.filter_cons]
      by_cases hpa : p a = true
      · rw [if_pos hpa, List.dedup_cons_of_mem (List.mem_filter.2 ⟨ha, hpa⟩)]
      · rw [if_neg hpa]
    · rw [List.dedup_cons_of_not_mem ha, List.filter_cons, List.filter_cons]
      by_cases hpa : p a = true
      · rw [if_pos hpa, if_pos hpa,
          List.dedup_cons_of_not_mem (fun hc => ha (List.mem_filter.1 hc).1), ih]
      · rw [if_neg hpa, if_neg hpa, ih]

theorem filter_map_pairOf (ms : List DBRecord) (u : String) :
    (ms.map pairOf).filter (fun p => decide (p.1 = u))
      = (ms.filter (fun m => decide (m.source = u))).map pairOf := by
  rw [List.filter_map]
  rfl

/-- Only the records whose `source` equals the entry's url influence its
classification flag. -/
theorem vector_flag_store_filter (ms : List DBRecord) (e : SitemapEntry) :
    vector_flag (db_entries (ms.filter (fun m => decide (m.source = e.url)))) e
      = vector_flag (db_entries ms) e := by
  unfold db_entries
  rw [← filter_map_pairOf, ← dedup_filter, vector_flag_filter]

theorem vector_flag_db_zero_iff (ms : List DBRecord) (e : SitemapEntry) :
    vector_flag (db_entries ms) e = 0 ↔ ∀ m ∈ ms, m.source ≠ e.url := by
  rw [vector_flag_eq_zero_iff]
  constructor
  · intro h m hm
    exact h (pairOf m) (List.mem_dedup.2 (List.mem_map.2 ⟨m, hm, rfl⟩))
  · intro h p hp
    rcases List.mem_map.1 (List.mem_dedup.1 hp) with ⟨m, hm, rfl⟩
    exact h m hm

/-- When every record for the entry's url carries the same `lastmod` and
at least one exists, the flag is decided by that common timestamp. -/
theorem vector_flag_db_const (ms : List DBRecord) (e : SitemapEntry) (t : Int)
    (hex : ∃ m ∈ ms, m.source = e.url)
    (ht : ∀ m ∈ ms, m.source = e.url → m.lastmod = t) :
    vector_flag (db_entries ms) e = if e.lastmod ≤ t then 1 else 2 := by
  apply vector_flag_const
  · rcases hex with ⟨m, hm, hsrc⟩
    exact ⟨pairOf m, List.mem_dedup.2 (List.mem_map.2 ⟨m, hm, rfl⟩), hsrc⟩
  · intro p hp hp1
    rcases List.mem_map.1 (List.mem_dedup.1 hp) with ⟨m, hm, rfl⟩
    exact ht m hm hp1

/-! ### Structure of the reconciliation output -/

theorem mem_delete_ids_for (ms : List DBRecord) (e : SitemapEntry) (s : String) :
    s ∈ delete_ids_for ms e ↔ ∃ m ∈ ms, m.source = e.url ∧ m.id = s := by
  simp only [delete_ids_for, List.mem_map, List.mem_filter, decide_eq_true_eq]
  constructor
  · rintro ⟨m, ⟨hm, hsrc⟩, rfl⟩
    exact ⟨m, hm, hsrc, rfl⟩
  · rintro ⟨m, hm, hsrc, rfl⟩
    exact ⟨m, ⟨hm, hsrc⟩, rfl⟩

theorem reconcile_fst_eq_filter (ms : List DBRecord) (entries : List SitemapEntry) :
    (reconcile ms entries).1
      = entries.filter (fun e => decide (vector_flag (db_entries ms) e ≠ 1)) := by
  induction entries with
  | nil => rfl
  | cons e rest ih =>
    rcases vector_flag_cases (db_entries ms) e with hf | hf | hf <;>
      simp [reconcile, hf, List.filter_cons, ih]

theorem reconcile_snd_eq_flatMap (ms : List DBRecord) (entries : List SitemapEntry) :
    (reconcile ms entries).2
      = entries.flatMap (fun e =>
          if vector_flag (db_entries ms) e = 2 then delete_ids_for ms e else []) := by
  induction entries with
  | nil => rfl
  | cons e rest ih =>
    rcases vector_flag_cases (db_entries ms) e with hf | hf | hf <;>
      simp [reconcile, hf, List.flatMap_cons, ih]

theorem mem_reconcile_fst (ms : List DBRecord) (entries : List SitemapEntry)
    (e : SitemapEntry) :
    e ∈ (reconcile ms entries).1
      ↔ e ∈ entries ∧ vector_flag (db_entries ms) e ≠ 1 := by
  rw [reconcile_fst_eq_filter]
  simp [List.mem_filter]

theorem mem_reconcile_snd (ms : List DBRecord) (entries : List SitemapEntry)
    (s : String) :
    s ∈ (reconcile ms entries).2
      ↔ ∃ e ∈ entries, vector_flag (db_entries ms) e = 2 ∧ s ∈ delete_ids_for ms e := by
  rw [reconcile_snd_eq_flatMap]
  simp only [List.mem_flatMap, List.mem_ite_nil_right]

/-- If every entry is classified "exists, no update" then reconciliation
emits nothing. -/
theorem reconcile_all_skip (ms : List DBRecord) (entries : List SitemapEntry)
    (h : ∀ e ∈ entries, vector_flag (db_entries ms) e = 1) :
    reconcile ms entries = ([], []) := by
  induction entries with
  | nil => rfl
  | cons e rest ih =>
    have he := h e (List.mem_cons_self _ _)
    have hrest := ih (fun e' he' => h e' (List.mem_cons_of_mem _ he'))
    simp [reconcile, he, hrest]

/-! ### The batch indexing loop (`create_documents` / `check_next_batch`) -/

/-- The graph state fields read and written by the batch loop
(`sitemap_entries` queue and running `documents_count`). -/
structure BatchState where
  sitemap_entries : List SitemapEntry
  documents_count : Nat
deriving DecidableEq, Repr

/-- Node 3, `create_documents` (graph.py lines 86–138): on an empty
queue return `documents_count = 0`; otherwise take the first
`batch_size` entries, load/split/index them, and return the remaining
queue together with the incremented count.  `chunkCount e` abstracts
the number of chunks the external loader + splitter produce for entry
`e` (`len(processed_documents)` of a batch is the sum over its
entries). -/
def create_documents (chunkCount : SitemapEntry → Nat) (batch_size : Nat)
    (s : BatchState) : BatchState :=
  if s.sitemap_entries = [] then ⟨s.sitemap_entries, 0⟩
  else
    ⟨s.sitemap_entries.drop batch_size,
      s.documents_count + ((s.sitemap_entries.take batch_size).map chunkCount).sum⟩

/-- The conditional edge `check_next_batch` (graph.py lines 141–146). -/
def check_next_batch (s : BatchState) : String :=
  if s.sitemap_entries = [] then "__end__" else "create_documents"

/-- The loop `create_documents → check_next_batch → …` of the compiled
graph, with explicit fuel; the second component counts the
`create_documents` invocations performed. -/
def drain_loop (chunkCount : SitemapEntry → Nat) (batch_size : Nat) :
    Nat → BatchState → BatchState × Nat
  | 0, s => (s, 0)
  | fuel + 1, s =>
    let s' := create_documents chunkCount batch_size s
    if check_next_batch s' = "__end__" then (s', 1)
    else
      let r := drain_loop chunkCount batch_size fuel s'
      (r.1, r.2 + 1)

/-- Running the batch loop from a state: `queue length + 1` fuel always
suffices (proved below via `drain_loop_spec`). -/
def run_batch_loop (chunkCount : SitemapEntry → Nat) (batch_size : Nat)
    (s : BatchState) : BatchState × Nat :=
  drain_loop chunkCount batch_size (s.sitemap_entries.length + 1) s

/-- The successive batches the loop processes: first `batch_size`
entries, then the batches of the rest. -/
def batch_trace_fuel (batch_size : Nat) :
    Nat → List SitemapEntry → List (List SitemapEntry)
  | 0, _ => []
  | fuel + 1, q =>
    if q = [] then []
    else q.take batch_size :: batch_trace_fuel batch_size fuel (q.drop batch_size)

def batch_trace (batch_size : Nat) (q : List SitemapEntry) :
    List (List SitemapEntry) :=
  batch_trace_fuel batch_size q.length q

theorem create_documents_nonempty (cc : SitemapEntry → Nat) (B : Nat)
    (q : List SitemapEntry) (c : Nat) (hq : q ≠ []) :
    create_documents cc B ⟨q, c⟩
      = ⟨q.drop B, c + ((q.take B).map cc).sum⟩ := by
  simp [create_documents, hq]

/-- Full characterisation of the drained loop on a non-empty queue:
final queue empty, final count = initial count plus all chunks, and
`⌈length / B⌉` iterations. -/
theorem drain_loop_spec (cc : SitemapEntry → Nat) (B : Nat) (hB : 1 ≤ B) :
    ∀ (fuel : Nat) (q : List SitemapEntry) (c : Nat), q ≠ [] → q.length ≤ fuel →
      drain_loop cc B fuel ⟨q, c⟩
        = (⟨[], c + (q.map cc).sum⟩, (q.length + B - 1) / B) := by
  intro fuel
  induction fuel with
  | zero =>
    intro q c hq hlen
    exact absurd (List.length_eq_zero.1 (Nat.le_zero.1 hlen)) hq
  | succ fuel ih =>
    intro q c hq hlen
    have hsum : ((q.take B).map cc).sum + ((q.drop B).map cc).sum = (q.map cc).sum := by
      conv_rhs => rw [← List.take_append_drop B q]
      rw [List.map_append, List.sum_append]
    by_cases hdrop : q.drop B = []
    · have htake : q.take B = q := List.take_of_length_le (List.drop_eq_nil_iff.1 hdrop)
      have hlen1 : 1 ≤ q.length := Nat.one_le_iff_ne_zero.2 (fun h => hq (List.length_eq_zero.1 h))
      have hdiv : (q.length + B - 1) / B = 1 := by
        apply Nat.div_eq_of_lt_le
        · have := List.drop_eq_nil_iff.1 hdrop
          omega
        · have := List.drop_eq_nil_iff.1 hdrop
          omega
      simp [drain_loop, create_documents_nonempty cc B q c hq, check_next_batch,
        htake, hdrop, hdiv]
    · have hlenq : B < q.length := by
        have h1 : ¬ q.length ≤ B := fun h => hdrop (List.drop_eq_nil_iff.2 h)
        omega
      have hrec := ih (q.drop B) (c + ((q.take B).map cc).sum) hdrop
        (by rw [List.length_drop]; omega)
      have hne : check_next_batch ⟨q.drop B, c + ((q.take B).map cc).sum⟩ ≠ "__end__" := by
        simp [check_next_batch, hdrop]
      simp only [drain_loop, create_documents_nonempty cc B q c hq, if_neg hne, hrec]
      have hcount : c + ((q.take B).map cc).sum + ((q.drop B).map cc).sum
          = c + (q.map cc).sum := by omega
      have hiter : ((q.drop B).length + B - 1) / B + 1 = (q.length + B - 1) / B := by
        rw [List.length_drop]
        have h1 : q.length - B + B - 1 = q.length - 1 := by omega
        have h2 : q.length + B - 1 = (q.length - 1) + B := by omega
        rw [h1, h2, Nat.add_div_right _ (by omega : 0 < B)]
      rw [hcount, hiter]

theorem batch_trace_fuel_nil (B fuel : Nat) : batch_trace_fuel B fuel [] = [] := by
  cases fuel <;> rfl

theorem batch_trace_fuel_flatten (B : Nat) (hB : 1 ≤ B) :
    ∀ (fuel : Nat) (q : List SitemapEntry), q.length ≤ fuel →
      (batch_trace_fuel B fuel q).flatten = q := by
  intro fuel
  induction fuel with
  | zero =>
    intro q hlen
    rw [List.length_eq_zero.1 (Nat.le_zero.1 hlen)]
    rfl
  | succ fuel ih =>
    intro q hlen
    by_cases hq : q = []
    · simp [batch_trace_fuel, hq]
    · have hlen1 : 1 ≤ q.length := Nat.one_le_iff_ne_zero.2 (fun h => hq (List.length_eq_zero.1 h))
      have hrec := ih (q.drop B) (by rw [List.length_drop]; omega)
      simp [batch_trace_fuel, hq, hrec, List.take_append_drop]

theorem batch_trace_fuel_length (B : Nat) (hB : 1 ≤ B) :
    ∀ (fuel : Nat) (q : List SitemapEntry), q ≠ [] → q.length ≤ fuel →
      (batch_trace_fuel B fuel q).length = (q.length + B - 1) / B := by
  intro fuel
  induction fuel with
  | zero =>
    intro q hq hlen
    exact absurd (List.length_eq_zero.1 (Nat.le_zero.1 hlen)) hq
  | succ fuel ih =>
    intro q hq hlen
    have hlen1 : 1 ≤ q.length := Nat.one_le_iff_ne_zero.2 (fun h => hq (List.length_eq_zero.1 h))
    by_cases hdrop : q.drop B = []
    · have hle : q.length ≤ B := List.drop_eq_nil_iff.1 hdrop
      have hdiv : (q.length + B - 1) / B = 1 :=
        Nat.div_eq_of_lt_le (by omega) (by omega)
      simp [batch_trace_fuel, hq, hdrop, hdiv, batch_trace_fuel_nil]
    · have hlenq : B < q.length := by
        have h1 : ¬ q.length ≤ B := fun h => hdrop (List.drop_eq_nil_iff.2 h)
        omega
      have hrec := ih (q.drop B) hdrop (by rw [List.length_drop]; omega)
      simp only [batch_trace_fuel, if_neg hq, List.length_cons, hrec, List.length_drop]
      have h1 : q.length - B + B - 1 = q.length - 1 := by omega
      have h2 : q.length + B - 1 = (q.length - 1) + B := by omega
      rw [h1, h2, Nat.add_div_right _ (by omega : 0 < B)]

theorem batch_trace_fuel_mem (B : Nat) (hB : 1 ≤ B) :
    ∀ (fuel : Nat) (q : List SitemapEntry), q.length ≤ fuel →
      ∀ b ∈ batch_trace_fuel B fuel q, b ≠ [] ∧ b.length ≤ B := by
  intro fuel
  induction fuel with
  | zero => intro q _ b hb; simp [batch_trace_fuel] at hb
  | succ fuel ih =>
    intro q hlen b hb
    by_cases hq : q = []
    · simp [batch_trace_fuel, hq] at hb
    · have hlen1 : 1 ≤ q.length := Nat.one_le_iff_ne_zero.2 (fun h => hq (List.length_eq_zero.1 h))
      simp only [batch_trace_fuel, if_neg hq, List.mem_cons] at hb
      rcases hb with rfl | hb
      · constructor
        · have : (q.take B).length = min B q.length := List.length_take B q
          intro hc
          rw [hc] at this
          simp at this
          omega
        · rw [List.length_take]; omega
      · exact ih (q.drop B) (by rw [List.length_drop]; omega) b hb

theorem batch_trace_flatten (B : Nat) (q : List SitemapEntry) (hB : 1 ≤ B) :
    (batch_trace B q).flatten = q :=
  batch_trace_fuel_flatten B hB q.length q le_rfl

theorem batch_trace_length (B : Nat) (q : List SitemapEntry) (hB : 1 ≤ B)
    (hq : q ≠ []) :
    (batch_trace B q).length = (q.length + B - 1) / B :=
  batch_trace_fuel_length B hB q.length q hq le_rfl

theorem run_batch_loop_nonempty (cc : SitemapEntry → Nat) (B : Nat)
    (q : List SitemapEntry) (c : Nat) (hB : 1 ≤ B) (hq : q ≠ []) :
    run_batch_loop cc B ⟨q, c⟩
      = (⟨[], c + (q.map cc).sum⟩, (q.length + B - 1) / B) :=
  drain_loop_spec cc B hB (q.length + 1) q c hq (Nat.le_succ _)

theorem run_batch_loop_nil (cc : SitemapEntry → Nat) (B : Nat) (c : Nat) :
    run_batch_loop cc B ⟨[], c⟩ = (⟨[], 0⟩, 1) := rfl

/-! ### The Slack Block Kit message builder (`slack_bot.py`) -/

/-- The two Block Kit block shapes produced by
`_build_slack_message_blocks`: an `mrkdwn` section carrying text, and a
divider. -/
inductive SlackBlock where
  | sectionBlock (text : String)
  | divider
deriving DecidableEq, Repr

/-- One query result consumed by `_build_slack_message_blocks`
(`result.get(key, default)` is modelled with optional fields). -/
structure QueryResult where
  url : Option String
  summary : Option String
  response : Option String

/-- Definition `result_text` (slack_bot.py lines 171–176, with the decision line
commented out in the source). -/
def result_text (r : QueryResult) : String :=
  (r.url.getD "URL not available") ++ "\n\n" ++
    "• *Summary:* " ++ (r.summary.getD "Summary not available") ++ "\n\n" ++
    "• *Hint:* " ++ (r.response.getD "Response not available")

/-- Method `_build_slack_message_blocks` (slack_bot.py lines 141–188): header
section and divider, then one section plus one divider per result of
`results[:20]`. -/
def build_slack_message_blocks (results : List QueryResult) : List SlackBlock :=
  [SlackBlock.sectionBlock "*Analysis Results:*", SlackBlock.divider]
    ++ (results.take 20).flatMap
        (fun r => [SlackBlock.sectionBlock (result_text r), SlackBlock.divider])

/-! ### The store after a full run -/

/-- The records of a store whose `source` metadata equals `u`. -/
def source_records (ms : List DBRecord) (u : String) : List DBRecord :=
  ms.filter (fun m => decide (m.source = u))

theorem delete_ids_for_eq (ms : List DBRecord) (e : SitemapEntry) :
    delete_ids_for ms e = (source_records ms e.url).map DBRecord.id := rfl

theorem source_records_append (l₁ l₂ : List DBRecord) (u : String) :
    source_records (l₁ ++ l₂) u = source_records l₁ u ++ source_records l₂ u :=
  List.filter_append _ _

/-- Classification only depends on the records sharing the entry's
url. -/
theorem vector_flag_source_records (ms : List DBRecord) (e : SitemapEntry) :
    vector_flag (db_entries ms) e
      = vector_flag (db_entries (source_records ms e.url)) e :=
  (vector_flag_store_filter ms e).symm

/-- A store whose records all carry `source = e.url` and
`lastmod = e.lastmod`, and which is non-empty, classifies `e` as
"exists, no update". -/
theorem vector_flag_of_own_chunks (ms : List DBRecord) (e : SitemapEntry)
    (hne : ms ≠ [])
    (hsrc : ∀ m ∈ ms, m.source = e.url)
    (hlast : ∀ m ∈ ms, m.lastmod = e.lastmod) :
    vector_flag (db_entries ms) e = 1 := by
  rcases List.exists_mem_of_ne_nil ms hne with ⟨m, hm⟩
  rw [vector_flag_db_const ms e e.lastmod ⟨m, hm, hsrc m hm⟩
    (fun m' hm' _ => hlast m' hm')]
  simp

/-- Records of urls absent from the store of chunk-records built from
`ti` do not appear in its `source_records`. -/
theorem source_records_flatMap_of_not_mem (ti : List SitemapEntry)
    (chunkIds : SitemapEntry → List String) (u : String)
    (h : ∀ a ∈ ti, a.url ≠ u) :
    source_records
      (ti.flatMap (fun a => (chunkIds a).map (fun i => ⟨i, a.url, a.lastmod⟩))) u
      = [] := by
  rw [source_records, List.filter_eq_nil_iff]
  intro m hm
  rcases List.mem_flatMap.1 hm with ⟨a, ha, hma⟩
  rcases List.mem_map.1 hma with ⟨i, _, rfl⟩
  simpa using h a ha

/-- The `source_records` for `e.url` of the freshly indexed chunk
records: exactly `e`'s chunks when `e` was indexed, nothing
otherwise. -/
theorem source_records_flatMap (ti : List SitemapEntry)
    (chunkIds : SitemapEntry → List String) (e : SitemapEntry)
    (hkey : ∀ a ∈ ti, a.url = e.url → a = e)
    (hnodup : ti.Nodup) :
    source_records
      (ti.flatMap (fun a => (chunkIds a).map (fun i => ⟨i, a.url, a.lastmod⟩))) e.url
      = if e ∈ ti then (chunkIds e).map (fun i => ⟨i, e.url, e.lastmod⟩) else [] := by
  induction ti with
  | nil => simp [source_records]
  | cons a rest ih =>
    rw [List.flatMap_cons, source_records_append]
    rcases List.nodup_cons.1 hnodup with ⟨hanotin, hrestnodup⟩
    by_cases hurl : a.url = e.url
    · have hae : a = e := hkey a (List.mem_cons_self _ _) hurl
      subst hae
      have hrest : ∀ a' ∈ rest, a'.url ≠ a.url := by
        intro a' ha' hc
        exact hanotin (hkey a' (List.mem_cons_of_mem _ ha') hc ▸ ha')
      rw [source_records_flatMap_of_not_mem rest chunkIds a.url hrest]
      have hhead : source_records ((chunkIds a).map (fun i => ⟨i, a.url, a.lastmod⟩)) a.url
          = (chunkIds a).map (fun i => ⟨i, a.url, a.lastmod⟩) := by
        rw [source_records, List.filter_eq_self]
        intro m hm
        rcases List.mem_map.1 hm with ⟨i, _, rfl⟩
        simp
      simp [hhead]
    · have hhead : source_records ((chunkIds a).map (fun i => ⟨i, a.url, a.lastmod⟩)) e.url
          = [] := by
        rw [source_records, List.filter_eq_nil_iff]
        intro m hm
        rcases List.mem_map.1 hm with ⟨i, _, rfl⟩
        simpa using hurl
      have hnotmem : (e ∈ a :: rest) ↔ (e ∈ rest) := by
        simp only [List.mem_cons]
        constructor
        · rintro (rfl | h)
          · exact absurd rfl hurl
          · exact h
        · exact Or.inr
      rw [hhead, List.nil_append,
        ih (fun a' ha' => hkey a' (List.mem_cons_of_mem _ ha')) hrestnodup]
      simp only [hnotmem]

/-- Deletion never grows `source_records`. -/
theorem source_records_delete_of_absent (S0 : List DBRecord) (ids : List String)
    (u : String) (h : ∀ m ∈ S0, m.source ≠ u) :
    source_records (delete_by_ids S0 ids) u = [] := by
  rw [source_records, delete_by_ids, List.filter_filter, List.filter_eq_nil_iff]
  intro m hm hc
  rw [Bool.and_eq_true, decide_eq_true_eq, decide_eq_true_eq] at hc
  exact h m hm hc.1

/-- A Stale entry's records are all wiped from the store by the
node's deletion. -/
theorem source_records_delete_of_stale (S0 : List DBRecord)
    (entries : List SitemapEntry) (e : SitemapEntry) (he : e ∈ entries)
    (hf : vector_flag (db_entries S0) e = 2) :
    source_records (delete_by_ids S0 (reconcile S0 entries).2) e.url = [] := by
  rw [source_records, delete_by_ids, List.filter_filter, List.filter_eq_nil_iff]
  intro m hm hc
  rw [Bool.and_eq_true, decide_eq_true_eq, decide_eq_true_eq] at hc
  apply hc.2
  apply (mem_reconcile_snd S0 entries m.id).2
  exact ⟨e, he, hf, (mem_delete_ids_for S0 e m.id).2 ⟨m, hm, hc.1, rfl⟩⟩

/-- An Unchanged entry's records survive the node's deletion untouched
(assuming unique record ids and unique sitemap urls). -/
theorem source_records_delete_of_unchanged (S0 : List DBRecord)
    (entries : List SitemapEntry) (e : SitemapEntry) (he : e ∈ entries)
    (hids : (S0.map DBRecord.id).Nodup)
    (hnd : (entries.map SitemapEntry.url).Nodup)
    (hf : vector_flag (db_entries S0) e = 1) :
    source_records (delete_by_ids S0 (reconcile S0 entries).2) e.url
      = source_records S0 e.url := by
  rw [source_records, source_records, delete_by_ids, List.filter_filter]
  apply List.filter_congr
  intro m hm
  by_cases hsrc : m.source = e.url
  · have hnotdel : m.id ∉ (reconcile S0 entries).2 := by
      intro hmem
      rcases (mem_reconcile_snd S0 entries m.id).1 hmem with ⟨e', he', hf', hs⟩
      rcases (mem_delete_ids_for S0 e' m.id).1 hs with ⟨m', hm', hsrc', hid⟩
      have hmm : m' = m := List.inj_on_of_nodup_map hids hm' hm hid
      have hurl : e'.url = e.url := by rw [← hsrc', hmm, hsrc]
      have hee : e' = e := List.inj_on_of_nodup_map hnd he' he hurl
      rw [hee, hf] at hf'
      exact absurd hf' (by decide)
    simp [hsrc, hnotdel]
  · simp [hsrc]

/-- After a full run every sitemap entry is classified Unchanged,
assuming unique sitemap urls, unique store ids, and at least one chunk
produced for each indexed entry. -/
theorem vector_flag_after_run (S0 : List DBRecord) (entries : List SitemapEntry)
    (chunkIds : SitemapEntry → List String) (e : SitemapEntry) (he : e ∈ entries)
    (hnd : (entries.map SitemapEntry.url).Nodup)
    (hids : (S0.map DBRecord.id).Nodup)
    (hch : chunkIds e ≠ []) :
    vector_flag (db_entries (store_after_run S0 entries chunkIds)) e = 1 := by
  have hkey : ∀ a ∈ (reconcile S0 entries).1, a.url = e.url → a = e := by
    intro a ha hurl
    exact List.inj_on_of_nodup_map hnd ((mem_reconcile_fst S0 entries a).1 ha).1 he hurl
  have hnodup : (reconcile S0 entries).1.Nodup := by
    rw [reconcile_fst_eq_filter]
    exact (List.Nodup.of_map _ hnd).filter _
  have hchunksrc : ∀ m ∈ (chunkIds e).map
      (fun i => (⟨i, e.url, e.lastmod⟩ : DBRecord)), m.source = e.url := by
    intro m hm
    rcases List.mem_map.1 hm with ⟨i, _, rfl⟩
    rfl
  have hchunklast : ∀ m ∈ (chunkIds e).map
      (fun i => (⟨i, e.url, e.lastmod⟩ : DBRecord)), m.lastmod = e.lastmod := by
    intro m hm
    rcases List.mem_map.1 hm with ⟨i, _, rfl⟩
    rfl
  have hchunkne : (chunkIds e).map (fun i => (⟨i, e.url, e.lastmod⟩ : DBRecord)) ≠ [] := by
    intro hc
    exact hch (List.map_eq_nil_iff.1 hc)
  rw [vector_flag_source_records, store_after_run, source_records_append]
  rcases vector_flag_cases (db_entries S0) e with hf | hf | hf
  · -- New: no prior records, freshly indexed chunks only
    have habsent : ∀ m ∈ S0, m.source ≠ e.url := (vector_flag_db_zero_iff S0 e).1 hf
    have hmem : e ∈ (reconcile S0 entries).1 :=
      (mem_reconcile_fst S0 entries e).2 ⟨he, by rw [hf]; decide⟩
    rw [source_records_delete_of_absent S0 _ e.url habsent,
      source_records_flatMap _ chunkIds e hkey hnodup, if_pos hmem, List.nil_append]
    exact vector_flag_of_own_chunks _ e hchunkne hchunksrc hchunklast
  · -- Unchanged: prior records kept verbatim, nothing re-indexed for this url
    have hnotmem : e ∉ (reconcile S0 entries).1 := by
      intro hc
      exact ((mem_reconcile_fst S0 entries e).1 hc).2 hf
    rw [source_records_delete_of_unchanged S0 entries e he hids hnd hf,
      source_records_flatMap _ chunkIds e hkey hnodup, if_neg hnotmem, List.append_nil]
    rw [← vector_flag_source_records]
    exact hf
  · -- Stale: prior records deleted, freshly indexed chunks only
    have hmem : e ∈ (reconcile S0 entries).1 :=
      (mem_reconcile_fst S0 entries e).2 ⟨he, by rw [hf]; decide⟩
    rw [source_records_delete_of_stale S0 entries e he hf,
      source_records_flatMap _ chunkIds e hkey hnodup, if_pos hmem, List.nil_append]
    exact vector_flag_of_own_chunks _ e hchunkne hchunksrc hchunklast

/-! ### The set-iteration order made explicit

Python iterates the `db_entries` set in an unspecified order, and the
classification loop breaks at the first matching pair, so when one url
carries several distinct `lastmod` pairs the flag can depend on that
order — and two successive runs need not see the same order.  The
definitions below take the scan order as an explicit parameter `db`
(any enumeration, i.e. permutation, of `db_entries`), so that claims
about multi-run behaviour can quantify over all orders instead of
inheriting the fixed `dedup` order of the model. -/

/-- The classification loop of graph.py lines 54–78 with the iteration
order of the `db_entries` set made explicit: `db` is the sequence in
which the set's pairs are scanned. -/
def reconcile_under (db : List (String × Int)) (ms : List DBRecord) :
    List SitemapEntry → List SitemapEntry × List String
  | [] => ([], [])
  | e :: rest =>
    let r := reconcile_under db ms rest
    let f := vector_flag db e
    if f = 0 then (e :: r.1, r.2)
    else if f = 1 then r
    else if f = 2 then (e :: r.1, delete_ids_for ms e ++ r.2)
    else r

/-- The store after one full run whose set scan happened in order
`db`. -/
def store_after_run_under (db : List (String × Int)) (S0 : List DBRecord)
    (entries : List SitemapEntry) (chunkIds : SitemapEntry → List String) :
    List DBRecord :=
  delete_by_ids S0 (reconcile_under db S0 entries).2 ++
    (reconcile_under db S0 entries).1.flatMap
      (fun e => (chunkIds e).map (fun i => ⟨i, e.url, e.lastmod⟩))

theorem reconcile_under_db_entries (ms : List DBRecord)
    (entries : List SitemapEntry) :
    reconcile_under (db_entries ms) ms entries = reconcile ms entries := by
  induction entries with
  | nil => rfl
  | cons e rest ih => simp [reconcile_under, reconcile, ih]

theorem reconcile_under_congr (db dc : List (String × Int)) (ms : List DBRecord)
    (entries : List SitemapEntry)
    (h : ∀ e ∈ entries, vector_flag db e = vector_flag dc e) :
    reconcile_under db ms entries = reconcile_under dc ms entries := by
  induction entries with
  | nil => rfl
  | cons e rest ih =>
    have he := h e (List.mem_cons_self _ _)
    have hrest := ih (fun el hel => h el (List.mem_cons_of_mem _ hel))
    simp [reconcile_under, he, hrest]

theorem reconcile_under_all_skip (db : List (String × Int)) (ms : List DBRecord)
    (entries : List SitemapEntry)
    (h : ∀ e ∈ entries, vector_flag db e = 1) :
    reconcile_under db ms entries = ([], []) := by
  induction entries with
  | nil => rfl
  | cons e rest ih =>
    have he := h e (List.mem_cons_self _ _)
    have hrest := ih (fun el hel => h el (List.mem_cons_of_mem _ hel))
    simp [reconcile_under, he, hrest]

/-- When every pair matching the entry's url carries one common
`lastmod`, the flag depends only on which pairs are present, not on
their order. -/
theorem vector_flag_eq_of_mem_iff (db dc : List (String × Int)) (e : SitemapEntry)
    (hmem : ∀ p : String × Int, p ∈ db ↔ p ∈ dc)
    (huniq : ∀ p ∈ dc, ∀ q ∈ dc, p.1 = e.url → q.1 = e.url → p.2 = q.2) :
    vector_flag db e = vector_flag dc e := by
  by_cases hex : ∃ p ∈ dc, p.1 = e.url
  · rcases hex with ⟨p, hp, hp1⟩
    rw [vector_flag_const db e p.2 ⟨p, (hmem p).2 hp, hp1⟩
        (fun q hq hq1 => huniq q ((hmem q).1 hq) p hp hq1 hp1),
      vector_flag_const dc e p.2 ⟨p, hp, hp1⟩
        (fun q hq hq1 => huniq q hq p hp hq1 hp1)]
  · push_neg at hex
    rw [(vector_flag_eq_zero_iff db e).2 (fun p hp => hex p ((hmem p).1 hp)),
      (vector_flag_eq_zero_iff dc e).2 hex]

/-- A well-formed store (at most one `lastmod` per url) has pairwise
consistent `db_entries` pairs. -/
theorem db_entries_pairs_uniq (S : List DBRecord)
    (hwf : ∀ m₁ ∈ S, ∀ m₂ ∈ S, m₁.source = m₂.source → m₁.lastmod = m₂.lastmod) :
    ∀ p ∈ db_entries S, ∀ q ∈ db_entries S, p.1 = q.1 → p.2 = q.2 := by
  intro p hp q hq hpq
  rcases List.mem_map.1 (List.mem_dedup.1 hp) with ⟨m₁, hm₁, rfl⟩
  rcases List.mem_map.1 (List.mem_dedup.1 hq) with ⟨m₂, hm₂, rfl⟩
  exact hwf m₁ hm₁ m₂ hm₂ hpq

/-- The records of a sitemap url after a full run: the untouched prior
records when the entry was Unchanged, and exactly the freshly indexed
chunks otherwise. -/
theorem source_records_after_run (S0 : List DBRecord) (entries : List SitemapEntry)
    (chunkIds : SitemapEntry → List String) (e : SitemapEntry) (he : e ∈ entries)
    (hnd : (entries.map SitemapEntry.url).Nodup)
    (hids : (S0.map DBRecord.id).Nodup) :
    source_records (store_after_run S0 entries chunkIds) e.url
      = if vector_flag (db_entries S0) e = 1
        then source_records S0 e.url
        else (chunkIds e).map (fun i => ⟨i, e.url, e.lastmod⟩) := by
  have hkey : ∀ a ∈ (reconcile S0 entries).1, a.url = e.url → a = e := by
    intro a ha hurl
    exact List.inj_on_of_nodup_map hnd ((mem_reconcile_fst S0 entries a).1 ha).1 he hurl
  have hnodup : (reconcile S0 entries).1.Nodup := by
    rw [reconcile_fst_eq_filter]
    exact (List.Nodup.of_map _ hnd).filter _
  rw [store_after_run, source_records_append]
  rcases vector_flag_cases (db_entries S0) e with hf | hf | hf
  · have hmem : e ∈ (reconcile S0 entries).1 :=
      (mem_reconcile_fst S0 entries e).2 ⟨he, by rw [hf]; decide⟩
    rw [if_neg (by rw [hf]; decide),
      source_records_delete_of_absent S0 _ e.url ((vector_flag_db_zero_iff S0 e).1 hf),
      source_records_flatMap _ chunkIds e hkey hnodup, if_pos hmem, List.nil_append]
  · have hnotmem : e ∉ (reconcile S0 entries).1 := by
      intro hc
      exact ((mem_reconcile_fst S0 entries e).1 hc).2 hf
    rw [if_pos hf, source_records_delete_of_unchanged S0 entries e he hids hnd hf,
      source_records_flatMap _ chunkIds e hkey hnodup, if_neg hnotmem, List.append_nil]
  · have hmem : e ∈ (reconcile S0 entries).1 :=
      (mem_reconcile_fst S0 entries e).2 ⟨he, by rw [hf]; decide⟩
    rw [if_neg (by rw [hf]; decide),
      source_records_delete_of_stale S0 entries e he hf,
      source_records_flatMap _ chunkIds e hkey hnodup, if_pos hmem, List.nil_append]

/-- Given a well-formed pre-store, all pairs of the post-run store
matching a sitemap url carry the same `lastmod`. -/
theorem pairs_uniq_after_run (S0 : List DBRecord) (entries : List SitemapEntry)
    (chunkIds : SitemapEntry → List String) (e : SitemapEntry) (he : e ∈ entries)
    (hwf : ∀ m₁ ∈ S0, ∀ m₂ ∈ S0, m₁.source = m₂.source → m₁.lastmod = m₂.lastmod)
    (hnd : (entries.map SitemapEntry.url).Nodup)
    (hids : (S0.map DBRecord.id).Nodup) :
    ∀ p ∈ db_entries (store_after_run S0 entries chunkIds),
      ∀ q ∈ db_entries (store_after_run S0 entries chunkIds),
        p.1 = e.url → q.1 = e.url → p.2 = q.2 := by
  have hsr := source_records_after_run S0 entries chunkIds e he hnd hids
  intro p hp q hq hp1 hq1
  rcases List.mem_map.1 (List.mem_dedup.1 hp) with ⟨m₁, hm₁, rfl⟩
  rcases List.mem_map.1 (List.mem_dedup.1 hq) with ⟨m₂, hm₂, rfl⟩
  have hp1m : m₁.source = e.url := hp1
  have hq1m : m₂.source = e.url := hq1
  have hm₁s : m₁ ∈ source_records (store_after_run S0 entries chunkIds) e.url :=
    List.mem_filter.2 ⟨hm₁, by rw [decide_eq_true_eq]; exact hp1m⟩
  have hm₂s : m₂ ∈ source_records (store_after_run S0 entries chunkIds) e.url :=
    List.mem_filter.2 ⟨hm₂, by rw [decide_eq_true_eq]; exact hq1m⟩
  show m₁.lastmod = m₂.lastmod
  by_cases hf : vector_flag (db_entries S0) e = 1
  · rw [hsr, if_pos hf] at hm₁s hm₂s
    exact hwf m₁ (List.mem_filter.1 hm₁s).1 m₂ (List.mem_filter.1 hm₂s).1
      (hp1m.trans hq1m.symm)
  · rw [hsr, if_neg hf] at hm₁s hm₂s
    have h₁ : m₁.lastmod = e.lastmod := by
      rcases List.mem_map.1 hm₁s with ⟨i, _, hi⟩
      rw [← hi]
    have h₂ : m₂.lastmod = e.lastmod := by
      rcases List.mem_map.1 hm₂s with ⟨i, _, hi⟩
      rw [← hi]
    rw [h₁, h₂]

/-! ### Claim theorems -/

/-- C1: a sitemap entry whose url matches no indexed record is
classified New (flag `0`): it is appended to `new_entries`
(`to_index`), its own id-collection is empty, and every id that ends up
in `delete_ids` (`to_delete`) is the id of a record of a different
url, so the entry contributes no ids to `to_delete`. -/
theorem claim_C1_new_entry (ms : List DBRecord) (entries : List SitemapEntry)
    (e : SitemapEntry) (he : e ∈ entries)
    (hnew : ∀ m ∈ ms, m.source ≠ e.url) :
    e ∈ (reconcile ms entries).1
    ∧ delete_ids_for ms e = []
    ∧ ∀ s ∈ (reconcile ms entries).2, ∃ m ∈ ms, m.id = s ∧ m.source ≠ e.url := by
  have hf : vector_flag (db_entries ms) e = 0 := (vector_flag_db_zero_iff ms e).2 hnew
  refine ⟨(mem_reconcile_fst ms entries e).2 ⟨he, by rw [hf]; decide⟩, ?_, ?_⟩
  · rw [delete_ids_for]
    have hnil : ms.filter (fun m => decide (m.source = e.url)) = [] :=
      List.filter_eq_nil_iff.2 (fun m hm => by simpa using hnew m hm)
    rw [hnil]
    rfl
  · intro s hs
    rcases (mem_reconcile_snd ms entries s).1 hs with ⟨e', he', hf', hdel⟩
    rcases (mem_delete_ids_for ms e' s).1 hdel with ⟨m, hm, hsrc, hid⟩
    exact ⟨m, hm, hid, hnew m hm⟩

/-- C1 witness: empty index, sitemap `[(a, 2024-01-01)]` gives
`to_index = [a]` and `to_delete = {}`. -/
theorem claim_C1_new_entry_witness :
    reconcile [] [⟨"a", 20240101⟩] = ([⟨"a", 20240101⟩], [])
    ∧ (⟨"a", 20240101⟩ : SitemapEntry) ∈ (reconcile [] [⟨"a", 20240101⟩]).1 :=
  ⟨by decide,
    (claim_C1_new_entry [] [⟨"a", 20240101⟩] ⟨"a", 20240101⟩
      (by decide) (by decide)).1⟩

/-- C2: for an entry whose url has matching records all carrying one
`lastmod` (say `r`'s): when `entry.lastmod ≤ r.lastmod` (flag `1`,
equality included) the entry is in neither output; when
`entry.lastmod > r.lastmod` (flag `2`) the entry is appended to
`to_index` and the id of every record sharing the url is appended to
`to_delete`. -/
theorem claim_C2_matched_entry (ms : List DBRecord) (entries : List SitemapEntry)
    (e : SitemapEntry) (r : DBRecord) (he : e ∈ entries) (hr : r ∈ ms)
    (hsrc : r.source = e.url)
    (huniq : ∀ m ∈ ms, m.source = e.url → m.lastmod = r.lastmod)
    (hnd : (entries.map SitemapEntry.url).Nodup)
    (hids : (ms.map DBRecord.id).Nodup) :
    (e.lastmod ≤ r.lastmod →
        e ∉ (reconcile ms entries).1
        ∧ ∀ m ∈ ms, m.source = e.url → m.id ∉ (reconcile ms entries).2)
    ∧ (r.lastmod < e.lastmod →
        e ∈ (reconcile ms entries).1
        ∧ ∀ m ∈ ms, m.source = e.url → m.id ∈ (reconcile ms entries).2) := by
  have hflag := vector_flag_db_const ms e r.lastmod ⟨r, hr, hsrc⟩ huniq
  constructor
  · intro hle
    have hf1 : vector_flag (db_entries ms) e = 1 := by rw [hflag, if_pos hle]
    constructor
    · intro hc
      exact ((mem_reconcile_fst ms entries e).1 hc).2 hf1
    · intro m hm hmsrc hc
      rcases (mem_reconcile_snd ms entries m.id).1 hc with ⟨e', he', hf', hdel⟩
      rcases (mem_delete_ids_for ms e' m.id).1 hdel with ⟨m', hm', hsrc', hid⟩
      have hmm : m' = m := List.inj_on_of_nodup_map hids hm' hm hid
      have hurl : e'.url = e.url := by rw [← hsrc', hmm, hmsrc]
      have hee : e' = e := List.inj_on_of_nodup_map hnd he' he hurl
      rw [hee, hf1] at hf'
      exact absurd hf' (by decide)
  · intro hlt
    have hf2 : vector_flag (db_entries ms) e = 2 := by
      rw [hflag, if_neg (not_le.2 hlt)]
    refine ⟨(mem_reconcile_fst ms entries e).2 ⟨he, by rw [hf2]; decide⟩, ?_⟩
    intro m hm hmsrc
    exact (mem_reconcile_snd ms entries m.id).2
      ⟨e, he, hf2, (mem_delete_ids_for ms e m.id).2 ⟨m, hm, hmsrc, rfl⟩⟩

/-- C2 witness: index record `(x, a, 2024-01-01)`, sitemap entry
`(a, 2024-02-01)`: `to_index = [a]`, `to_delete = ["x"]`. -/
theorem claim_C2_matched_entry_witness :
    reconcile [⟨"x", "a", 20240101⟩] [⟨"a", 20240201⟩]
        = ([⟨"a", 20240201⟩], ["x"])
    ∧ ((⟨"x", "a", 20240101⟩ : DBRecord).lastmod
          < (⟨"a", 20240201⟩ : SitemapEntry).lastmod →
        (⟨"a", 20240201⟩ : SitemapEntry)
            ∈ (reconcile [⟨"x", "a", 20240101⟩] [⟨"a", 20240201⟩]).1
        ∧ ∀ m ∈ [(⟨"x", "a", 20240101⟩ : DBRecord)],
            m.source = (⟨"a", 20240201⟩ : SitemapEntry).url →
            m.id ∈ (reconcile [⟨"x", "a", 20240101⟩] [⟨"a", 20240201⟩]).2) :=
  ⟨by decide,
    (claim_C2_matched_entry [⟨"x", "a", 20240101⟩] [⟨"a", 20240201⟩]
      ⟨"a", 20240201⟩ ⟨"x", "a", 20240101⟩ (by decide) (by decide) (by decide)
      (by decide) (by decide) (by decide)).2⟩

/-- C3 counterexample: with pre-existing records for url `a` under two
distinct `lastmod` values (2024-02-01 and 2024-03-01) and sitemap
lastmod 2024-01-01, the entry is classified "exists, no update"
(its lastmod is below every stored pair), nothing is deleted, and after
reconciliation the store still holds records for `a` whose `lastmod`
differs from the sitemap's current value — under two different
`lastmod` values at once.  This refutes the claimed invariant as
stated. -/
theorem claim_C3_counterexample :
    (reconcile [⟨"x", "a", 20240201⟩, ⟨"y", "a", 20240301⟩] [⟨"a", 20240101⟩]).2
        = []
    ∧ delete_by_ids [⟨"x", "a", 20240201⟩, ⟨"y", "a", 20240301⟩]
        (reconcile [⟨"x", "a", 20240201⟩, ⟨"y", "a", 20240301⟩]
          [⟨"a", 20240101⟩]).2
      = [⟨"x", "a", 20240201⟩, ⟨"y", "a", 20240301⟩]
    ∧ (⟨"x", "a", 20240201⟩ : DBRecord).source = "a"
    ∧ (⟨"x", "a", 20240201⟩ : DBRecord).lastmod ≠ 20240101
    ∧ (⟨"y", "a", 20240301⟩ : DBRecord).lastmod
        ≠ (⟨"x", "a", 20240201⟩ : DBRecord).lastmod := by
  decide

/-- C3 amended: assuming the pre-existing store is well formed (all
records of one url share one `lastmod`) and the sitemap never moves a
url's `lastmod` backwards, every record that survives the node's
deletion for a sitemap url carries that url's current `lastmod` (so a
sitemap url has either zero surviving records or only current ones). -/
theorem claim_C3_amended (S0 : List DBRecord) (entries : List SitemapEntry)
    (e : SitemapEntry) (m : DBRecord)
    (hwf : ∀ m₁ ∈ S0, ∀ m₂ ∈ S0, m₁.source = m₂.source → m₁.lastmod = m₂.lastmod)
    (hmono : ∀ e' ∈ entries, ∀ m' ∈ S0, m'.source = e'.url → m'.lastmod ≤ e'.lastmod)
    (he : e ∈ entries)
    (hm : m ∈ delete_by_ids S0 (reconcile S0 entries).2)
    (hsrc : m.source = e.url) :
    m.lastmod = e.lastmod := by
  have hmS0 : m ∈ S0 := (List.mem_filter.1 hm).1
  have hle : m.lastmod ≤ e.lastmod := hmono e he m hmS0 hsrc
  have huniq : ∀ m' ∈ S0, m'.source = e.url → m'.lastmod = m.lastmod := by
    intro m' hm' hs'
    exact hwf m' hm' m hmS0 (by rw [hs', hsrc])
  have hflag := vector_flag_db_const S0 e m.lastmod ⟨m, hmS0, hsrc⟩ huniq
  by_cases hlt : e.lastmod ≤ m.lastmod
  · exact le_antisymm hle hlt
  · have hf2 : vector_flag (db_entries S0) e = 2 := by rw [hflag, if_neg hlt]
    have hdel : m.id ∈ (reconcile S0 entries).2 :=
      (mem_reconcile_snd S0 entries m.id).2
        ⟨e, he, hf2, (mem_delete_ids_for S0 e m.id).2 ⟨m, hmS0, hsrc, rfl⟩⟩
    have hkept := (List.mem_filter.1 hm).2
    rw [decide_eq_true_eq] at hkept
    exact absurd hdel hkept

/-- C3 amended witness: a well-formed store `[(x, a, 2024-01-01)]` with
sitemap `[(a, 2024-01-01)]`: the record survives and carries the
sitemap's current lastmod. -/
theorem claim_C3_amended_witness :
    (⟨"x", "a", 20240101⟩ : DBRecord)
        ∈ delete_by_ids [⟨"x", "a", 20240101⟩]
            (reconcile [⟨"x", "a", 20240101⟩] [⟨"a", 20240101⟩]).2
    ∧ (⟨"x", "a", 20240101⟩ : DBRecord).lastmod
        = (⟨"a", 20240101⟩ : SitemapEntry).lastmod :=
  ⟨by decide,
    claim_C3_amended [⟨"x", "a", 20240101⟩] [⟨"a", 20240101⟩]
      ⟨"a", 20240101⟩ ⟨"x", "a", 20240101⟩ (by decide) (by decide) (by decide)
      (by decide) (by decide)⟩

/-- C4 counterexample: idempotence as claimed fails because it depends
on Python's unspecified set-iteration order.  Store
`[(x, a, 2024-01-01), (y, a, 2024-03-01)]`, sitemap
`[(a, 2024-02-01)]` — sitemap unique by url, store ids unique, chunks
non-empty, so every hypothesis of the original claim holds.  Both scan
orders below enumerate exactly `db_entries` of the store.  A run 1 that
scans `(a, 2024-03-01)` first classifies the entry Unchanged and its
full run leaves the store bit-for-bit unchanged; a run 2 over that same
store whose scan happens to visit `(a, 2024-01-01)` first classifies
the same entry Stale, yielding `to_index = [a]`,
`to_delete = [x, y]` — not empty. -/
theorem claim_C4_counterexample :
    List.Perm [(("a" : String), (20240301 : Int)), ("a", 20240101)]
        (db_entries [⟨"x", "a", 20240101⟩, ⟨"y", "a", 20240301⟩])
    ∧ List.Perm [(("a" : String), (20240101 : Int)), ("a", 20240301)]
        (db_entries [⟨"x", "a", 20240101⟩, ⟨"y", "a", 20240301⟩])
    ∧ reconcile_under [("a", 20240301), ("a", 20240101)]
        [⟨"x", "a", 20240101⟩, ⟨"y", "a", 20240301⟩] [⟨"a", 20240201⟩]
        = ([], [])
    ∧ store_after_run_under [("a", 20240301), ("a", 20240101)]
        [⟨"x", "a", 20240101⟩, ⟨"y", "a", 20240301⟩] [⟨"a", 20240201⟩]
        (fun _ => ["c1"])
        = [⟨"x", "a", 20240101⟩, ⟨"y", "a", 20240301⟩]
    ∧ reconcile_under [("a", 20240101), ("a", 20240301)]
        [⟨"x", "a", 20240101⟩, ⟨"y", "a", 20240301⟩] [⟨"a", 20240201⟩]
        = ([⟨"a", 20240201⟩], ["x", "y"]) := by
  decide

/-- C4 amended: reconciliation is idempotent across runs — for ANY
orders `db₁`, `db₂` in which the two runs' set iterations enumerate
their respective `db_entries` sets, the second run yields empty
`to_index` and empty `to_delete` — PROVIDED the pre-existing store
holds at most one `lastmod` per url, besides the spec's data-model
assumptions: sitemap unique by url, unique store ids, and at least one
chunk per indexed entry. -/
theorem claim_C4_amended (S0 : List DBRecord) (entries : List SitemapEntry)
    (chunkIds : SitemapEntry → List String) (db₁ db₂ : List (String × Int))
    (hdb₁ : db₁.Perm (db_entries S0))
    (hdb₂ : db₂.Perm (db_entries (store_after_run_under db₁ S0 entries chunkIds)))
    (hwf : ∀ m₁ ∈ S0, ∀ m₂ ∈ S0, m₁.source = m₂.source → m₁.lastmod = m₂.lastmod)
    (hnd : (entries.map SitemapEntry.url).Nodup)
    (hids : (S0.map DBRecord.id).Nodup)
    (hch : ∀ e ∈ entries, chunkIds e ≠ []) :
    reconcile_under db₂ (store_after_run_under db₁ S0 entries chunkIds) entries
      = ([], []) := by
  have hflag1 : ∀ e ∈ entries, vector_flag db₁ e = vector_flag (db_entries S0) e := by
    intro e he
    exact vector_flag_eq_of_mem_iff db₁ (db_entries S0) e (fun p => hdb₁.mem_iff)
      (fun p hp q hq hp1 hq1 =>
        db_entries_pairs_uniq S0 hwf p hp q hq (hp1.trans hq1.symm))
  have hrun1 : reconcile_under db₁ S0 entries = reconcile S0 entries :=
    (reconcile_under_congr db₁ (db_entries S0) S0 entries hflag1).trans
      (reconcile_under_db_entries S0 entries)
  have hS1 : store_after_run_under db₁ S0 entries chunkIds
      = store_after_run S0 entries chunkIds := by
    simp only [store_after_run_under, store_after_run, hrun1]
  rw [hS1] at hdb₂ ⊢
  apply reconcile_under_all_skip
  intro e he
  rw [vector_flag_eq_of_mem_iff db₂
    (db_entries (store_after_run S0 entries chunkIds)) e (fun p => hdb₂.mem_iff)
    (pairs_uniq_after_run S0 entries chunkIds e he hwf hnd hids)]
  exact vector_flag_after_run S0 entries chunkIds e he hnd hids (hch e he)

/-- C4 amended witness: run 1 on an empty index (its pair set is empty,
so its only scan order is `[]`) indexes `a`; run 2, scanning the
resulting one-pair set, emits nothing. -/
theorem claim_C4_amended_witness :
    store_after_run_under [] [] [⟨"a", 20240101⟩] (fun _ => ["c1"])
        = [⟨"c1", "a", 20240101⟩]
    ∧ reconcile_under [("a", 20240101)]
        (store_after_run_under [] [] [⟨"a", 20240101⟩] (fun _ => ["c1"]))
        [⟨"a", 20240101⟩] = ([], []) :=
  ⟨by decide,
    claim_C4_amended [] [⟨"a", 20240101⟩] (fun _ => ["c1"]) [] [("a", 20240101)]
      (by decide) (by decide) (by decide) (by decide) (by decide) (by decide)⟩

/-- C5: with batch size `B ≥ 1` and a non-empty queue of `N` entries
the loop performs exactly `⌈N/B⌉` iterations; the batches partition the
queue in FIFO order, each non-empty and of at most `B` entries; each
iteration takes the first `B` remaining entries and adds exactly that
batch's chunk count to the running counter (hence the counter is
non-decreasing), ending with the total chunk count. -/
theorem claim_C5_batch_loop (cc : SitemapEntry → Nat) (B : Nat)
    (q : List SitemapEntry) (c : Nat) (hB : 1 ≤ B) (hq : q ≠ []) :
    (run_batch_loop cc B ⟨q, c⟩).2 = (q.length + B - 1) / B
    ∧ (batch_trace B q).length = (run_batch_loop cc B ⟨q, c⟩).2
    ∧ (batch_trace B q).flatten = q
    ∧ (∀ b ∈ batch_trace B q, b ≠ [] ∧ b.length ≤ B)
    ∧ (create_documents cc B ⟨q, c⟩).sitemap_entries = q.drop B
    ∧ (create_documents cc B ⟨q, c⟩).documents_count
        = c + ((q.take B).map cc).sum
    ∧ c ≤ (create_documents cc B ⟨q, c⟩).documents_count
    ∧ (run_batch_loop cc B ⟨q, c⟩).1.documents_count = c + (q.map cc).sum := by
  have hrun := run_batch_loop_nonempty cc B q c hB hq
  have hcd := create_documents_nonempty cc B q c hq
  refine ⟨by rw [hrun], ?_, batch_trace_flatten B q hB, ?_,
    by rw [hcd], by rw [hcd], ?_, by rw [hrun]⟩
  · rw [hrun, batch_trace_length B q hB hq]
  · exact batch_trace_fuel_mem B hB q.length q le_rfl
  · rw [hcd]
    exact Nat.le_add_right c _

/-- C5 witness: batch size 2 on queue `[a, b, c]`: batches `[a, b]`
then `[c]`, two iterations, then the terminal empty queue. -/
theorem claim_C5_batch_loop_witness :
    batch_trace 2 [⟨"a", 1⟩, ⟨"b", 1⟩, ⟨"c", 1⟩]
        = [[⟨"a", 1⟩, ⟨"b", 1⟩], [⟨"c", 1⟩]]
    ∧ (run_batch_loop (fun _ => 1) 2 ⟨[⟨"a", 1⟩, ⟨"b", 1⟩, ⟨"c", 1⟩], 0⟩).1.sitemap_entries = []
    ∧ (run_batch_loop (fun _ => 1) 2 ⟨[⟨"a", 1⟩, ⟨"b", 1⟩, ⟨"c", 1⟩], 0⟩).2
        = (([⟨"a", 1⟩, ⟨"b", 1⟩, ⟨"c", 1⟩] : List SitemapEntry).length + 2 - 1) / 2 :=
  ⟨by decide, by decide,
    (claim_C5_batch_loop (fun _ => 1) 2 [⟨"a", 1⟩, ⟨"b", 1⟩, ⟨"c", 1⟩] 0
      (by decide) (by decide)).1⟩

/-- C6: with no configuration the node fails with the `ValueError`
playing the spec's `ConfigurationError` role (graph.py line 30) before
any store access; when the existing-record fetch raises, the node fails
with the `RuntimeError` playing the spec's `RetrievalError` role
(graph.py line 47).  In both cases the returned store equals the input
store: the deletion of line 81 is never reached, so no partial
reconciliation is committed. -/
theorem claim_C6_failure_modes (entries : List SitemapEntry)
    (store : List DBRecord) :
    (∀ fetchError : Option String,
        filter_sitemap_entries (some entries) none fetchError store
          = (store, Except.error (LoaderError.valueError
              "Configuration required to run <filter_sitemap_entries>.")))
    ∧ ∀ (c : LoaderConfig) (msg : String),
        filter_sitemap_entries (some entries) (some c) (some msg) store
          = (store, Except.error (LoaderError.runtimeError
              ("Failed to retrieve documents: " ++ msg))) :=
  ⟨fun _ => rfl, fun _ _ => rfl⟩

/-- C7: the loop terminates — on a non-empty queue one
`create_documents` step strictly shrinks the queue (it removes the
first `batch_size ≥ 1` entries), `check_next_batch` routes to
`"__end__"` exactly when the remaining queue is empty, and the full
loop always reaches the empty queue. -/
theorem claim_C7_termination (cc : SitemapEntry → Nat) (B : Nat)
    (q : List SitemapEntry) (c : Nat) (s : BatchState)
    (hB : 1 ≤ B) (hq : q ≠ []) :
    (create_documents cc B ⟨q, c⟩).sitemap_entries.length < q.length
    ∧ (check_next_batch s = "__end__" ↔ s.sitemap_entries = [])
    ∧ (run_batch_loop cc B s).1.sitemap_entries = [] := by
  refine ⟨?_, ?_, ?_⟩
  · rw [create_documents_nonempty cc B q c hq]
    simp only [List.length_drop]
    have h1 : 1 ≤ q.length :=
      Nat.one_le_iff_ne_zero.2 (fun h => hq (List.length_eq_zero.1 h))
    omega
  · unfold check_next_batch
    by_cases hs : s.sitemap_entries = []
    · simp [hs]
    · simp [hs]
  · obtain ⟨qs, cs⟩ := s
    by_cases hqs : qs = []
    · subst hqs
      rw [run_batch_loop_nil]
    · rw [run_batch_loop_nonempty cc B qs cs hB hqs]

/-- C7 witness: batch size 1 on queue `[a]`. -/
theorem claim_C7_termination_witness :
    (create_documents (fun _ => 1) 1 ⟨[⟨"a", 1⟩], 0⟩).sitemap_entries.length
        < ([⟨"a", 1⟩] : List SitemapEntry).length
    ∧ (check_next_batch ⟨[⟨"a", 1⟩], 0⟩ = "__end__"
        ↔ (⟨[⟨"a", 1⟩], 0⟩ : BatchState).sitemap_entries = [])
    ∧ (run_batch_loop (fun _ => 1) 1 ⟨[⟨"a", 1⟩], 0⟩).1.sitemap_entries = [] :=
  claim_C7_termination (fun _ => 1) 1 [⟨"a", 1⟩] 0 ⟨[⟨"a", 1⟩], 0⟩
    (by decide) (by decide)

/-- C8 counterexample: a sitemap with two entries for url `a`
(2024-01-01 then 2024-02-01) against an empty index does NOT reconcile
like the one-entry sitemap holding only the last occurrence: both
occurrences are classified New and appended, so the url reaches
`to_index` twice. -/
theorem claim_C8_counterexample :
    (reconcile [] [⟨"a", 20240101⟩, ⟨"a", 20240201⟩]).1
        ≠ (reconcile [] [⟨"a", 20240201⟩]).1
    ∧ ((reconcile [] [⟨"a", 20240101⟩, ⟨"a", 20240201⟩]).1.filter
        (fun e' => decide (e'.url = "a"))).length = 2 := by
  decide

/-- C8 amended: reconciliation performs no url-deduplication at all:
each occurrence is classified independently against the same snapshot,
so outputs concatenate over sitemap concatenation, and a duplicated url
contributes to `to_index` once per non-Unchanged occurrence. -/
theorem claim_C8_amended (ms : List DBRecord) (s₁ s₂ : List SitemapEntry) :
    reconcile ms (s₁ ++ s₂)
      = ((reconcile ms s₁).1 ++ (reconcile ms s₂).1,
         (reconcile ms s₁).2 ++ (reconcile ms s₂).2) := by
  induction s₁ with
  | nil => simp [reconcile]
  | cons e rest ih =>
    rcases vector_flag_cases (db_entries ms) e with hf | hf | hf <;>
      simp [reconcile, hf, ih, List.append_assoc]

/-- C9: every id appended to `to_delete` is the id of a fetched record
whose `source` url is the url of some sitemap entry classified Stale
(flag `2`); a stored record whose url occurs in no sitemap entry is
never deleted and survives `delete_by_ids` unchanged (store ids assumed
unique). -/
theorem claim_C9_frame (ms : List DBRecord) (entries : List SitemapEntry)
    (hids : (ms.map DBRecord.id).Nodup) :
    (∀ s ∈ (reconcile ms entries).2,
        ∃ m ∈ ms, m.id = s ∧ ∃ e ∈ entries, e.url = m.source
          ∧ vector_flag (db_entries ms) e = 2)
    ∧ ∀ m ∈ ms, (∀ e ∈ entries, e.url ≠ m.source) →
        m ∈ delete_by_ids ms (reconcile ms entries).2 := by
  constructor
  · intro s hs
    rcases (mem_reconcile_snd ms entries s).1 hs with ⟨e, he, hf, hdel⟩
    rcases (mem_delete_ids_for ms e s).1 hdel with ⟨m, hm, hsrc, hid⟩
    exact ⟨m, hm, hid, e, he, hsrc.symm, hf⟩
  · intro m hm hnone
    rw [delete_by_ids, List.mem_filter]
    refine ⟨hm, ?_⟩
    rw [decide_eq_true_eq]
    intro hc
    rcases (mem_reconcile_snd ms entries m.id).1 hc with ⟨e, he, hf, hdel⟩
    rcases (mem_delete_ids_for ms e m.id).1 hdel with ⟨m', hm', hsrc', hid⟩
    have hmm : m' = m := List.inj_on_of_nodup_map hids hm' hm hid
    rw [hmm] at hsrc'
    exact hnone e he hsrc'.symm

/-- C9 witness: the record for url `b` (absent from the sitemap)
survives reconciliation of a sitemap holding only url `a`. -/
theorem claim_C9_frame_witness :
    (reconcile [⟨"x", "b", 20240101⟩] [⟨"a", 20240201⟩]).2 = []
    ∧ ∀ m ∈ [(⟨"x", "b", 20240101⟩ : DBRecord)],
        (∀ e ∈ [(⟨"a", 20240201⟩ : SitemapEntry)], e.url ≠ m.source) →
        m ∈ delete_by_ids [⟨"x", "b", 20240101⟩]
            (reconcile [⟨"x", "b", 20240101⟩] [⟨"a", 20240201⟩]).2 :=
  ⟨by decide,
    (claim_C9_frame [⟨"x", "b", 20240101⟩] [⟨"a", 20240201⟩] (by decide)).2⟩

/-- C10: the Slack block list is the header section and divider
followed by one section plus one divider per result of the first
twenty, in order; its length is exactly `2 + 2 * min(|results|, 20)`,
and results beyond the twentieth do not influence the output. -/
theorem claim_C10_slack_blocks (results : List QueryResult) :
    (build_slack_message_blocks results).length
        = 2 + 2 * min results.length 20
    ∧ build_slack_message_blocks results
        = [SlackBlock.sectionBlock "*Analysis Results:*", SlackBlock.divider]
            ++ (results.take 20).flatMap
                (fun r => [SlackBlock.sectionBlock (result_text r), SlackBlock.divider])
    ∧ build_slack_message_blocks results
        = build_slack_message_blocks (results.take 20) := by
  refine ⟨?_, rfl, ?_⟩
  · rw [build_slack_message_blocks, List.length_append, List.length_flatMap]
    have hsum : ∀ l : List QueryResult,
        (l.map (List.length ∘ fun r =>
          [SlackBlock.sectionBlock (result_text r), SlackBlock.divider])).sum
          = 2 * l.length := by
      intro l
      induction l with
      | nil => rfl
      | cons a t ih =>
        simp only [List.map_cons, List.sum_cons, ih, List.length_cons,
          Function.comp_apply, List.length_nil]
        ring
    rw [hsum, List.length_take]
    simp only [List.length_cons, List.length_nil]
    omega
  · rw [build_slack_message_blocks, build_slack_message_blocks, List.take_take]
    norm_num
